import Mathlib

/-!
Verification of the google-maps-vector-engine repository against its
natural-language specification.

The definitions below are shallow embeddings of the TypeScript source:

* `Mercator.normalizeTile`, `Mercator.projectPointOnLineSegment`,
  `Mercator.getDistanceFromLine` embed `src/Mercator.ts`.
* `MVTLayer.checkLineClick` embeds `MVTLayer._checkLineClick` from
  `src/MVTLayer.ts`.
* `MVTSource.defaultGetIDForLayerFeature`, `MVTSource.isTileAvailable`,
  `MVTSource.xhrRequest`, `MVTSource.getStyleForFeature`,
  `MVTSource.setVisibleTile`, `MVTSource.setTileDrawn`, and the
  `MVTSource.SrcState` operation machine embed the `MVTSource` class.
* `MVTFeature.getPoint` / `MVTFeature.getOverzoomedPoint` embed
  `src/MVTFeature.ts`.

JavaScript semantics that matter are made explicit: `<<` operates on
32-bit two's-complement integers (`jsShl1`), `%` on integers is the
truncated remainder (`Int.tmod`), `||`-defaulting treats `0` as falsy,
and `String.prototype.replace` with a string pattern replaces only the
first occurrence.
-/

namespace GMVE

/-! ### JavaScript arithmetic primitives -/

/-- Embedding of the JavaScript expression `1 << z`: the shift count is
taken mod 32 and the result is a 32-bit two's-complement integer. -/
def jsShl1 (z : ℕ) : ℤ :=
  (2 ^ (z % 32) + 2 ^ 31) % 2 ^ 32 - 2 ^ 31

/-- Embedding of the JavaScript `%` operator on integral numbers:
truncated remainder, taking the sign of the dividend. -/
def jsRem (a b : ℤ) : ℤ := a.tmod b

/-! ### Mercator.normalizeTile (src/Mercator.ts lines 76-83) -/

/-- Integer tile coordinate as consumed by `Mercator.normalizeTile`. -/
structure TileCoordZ where
  x : ℤ
  y : ℤ
  z : ℕ
  deriving DecidableEq, Repr

/-- Embedding of `Mercator.normalizeTile`:
`const t = 1 << tile.z; x = ((tile.x % t) + t) % t; y likewise`. -/
def normalizeTile (tile : TileCoordZ) : TileCoordZ :=
  let t := jsShl1 tile.z
  { x := jsRem (jsRem tile.x t + t) t
    y := jsRem (jsRem tile.y t + t) t
    z := tile.z }

/-! ### Point geometry (src/Mercator.ts lines 164-204) -/

/-- Embedding of the `Point` interface from src/types.ts. -/
@[ext]
structure Pt where
  x : ℝ
  y : ℝ

/-- Embedding of `Mercator.projectPointOnLineSegment`: distance from
`point` to the segment `[lineStart, lineEnd]`, via projection clamped to
parameter `[0, 1]`, with the degenerate segment (`lenSq === 0`) guarded
to plain point distance. -/
noncomputable def projectPointOnLineSegment (point lineStart lineEnd : Pt) : ℝ :=
  let A := point.x - lineStart.x
  let B := point.y - lineStart.y
  let C := lineEnd.x - lineStart.x
  let D := lineEnd.y - lineStart.y
  let dot := A * C + B * D
  let lenSq := C * C + D * D
  if lenSq = 0 then Real.sqrt (A * A + B * B)
  else
    let param := max 0 (min 1 (dot / lenSq))
    let xx := lineStart.x + param * C
    let yy := lineStart.y + param * D
    let dx := point.x - xx
    let dy := point.y - yy
    Real.sqrt (dx * dx + dy * dy)

/-- Embedding of `Mercator.getDistanceFromLine`: `+∞` for a polyline of
fewer than two points (`Number.POSITIVE_INFINITY` is modelled as `⊤` of
`WithTop ℝ`), otherwise the running minimum over all consecutive
segments, exactly as the source's loop accumulates it. -/
noncomputable def getDistanceFromLine (point : Pt) (line : List Pt) : WithTop ℝ :=
  if line.length < 2 then ⊤
  else (line.zip line.tail).foldl
    (fun m ab => min m ((projectPointOnLineSegment point ab.1 ab.2 : ℝ) : WithTop ℝ)) ⊤

/-- The constant `MVTLayer._lineClickTolerance = 2`. -/
def lineClickTolerance : ℝ := 2

/-- JavaScript `style.lineWidth || 1`: an absent or zero line width
falls back to 1 (0 is falsy in JavaScript). -/
noncomputable def jsOrOne (w : Option ℝ) : ℝ :=
  match w with
  | none => 1
  | some v => if v = 0 then 1 else v

/-- Embedding of `MVTLayer._checkLineClick` (src/MVTLayer.ts lines
310-325): iterate the feature's paths; on the first path whose distance
is strictly below both the tolerance `lineWidth / 2 + 2` and the running
best distance, record that distance and report a hit. -/
noncomputable def checkLineClick (tilePoint : Pt) (paths : List (List Pt))
    (lineWidth : Option ℝ) (minDistance : WithTop ℝ) : Bool × WithTop ℝ :=
  match paths with
  | [] => (false, minDistance)
  | path :: rest =>
    let distance := getDistanceFromLine tilePoint path
    let tolerance : ℝ := jsOrOne lineWidth / 2 + lineClickTolerance
    if distance < (tolerance : WithTop ℝ) ∧ distance < minDistance then
      (true, distance)
    else checkLineClick tilePoint rest lineWidth minDistance

/-! ### Overzoom coordinate mapping
(src/MVTFeature.ts lines 363-399 and MVTSource._getParentId) -/

/-- Tile key `(z, x, y)` with non-negative coordinates, the parsed form
of the canonical string `"z:x:y"` built by `getTileId` and read back by
`getTileObject`. -/
structure TileKeyR where
  z : ℕ
  x : ℕ
  y : ℕ
  deriving DecidableEq, Repr

/-- Embedding of `MVTSource._getParentId`: when `sourceMaxZoom` is set
and the tile's zoom exceeds it, the parent key keeps zoom
`z - zoomDistance` and right-shifts `x` and `y` by
`zoomDistance = z - sourceMaxZoom`. -/
def getParentId (sourceMaxZoom : Option ℕ) (tile : TileKeyR) : Option TileKeyR :=
  match sourceMaxZoom with
  | none => none
  | some m =>
    if tile.z > m then
      let zoomDistance := tile.z - m
      some ⟨tile.z - zoomDistance, tile.x >>> zoomDistance, tile.y >>> zoomDistance⟩
    else none

/-- Embedding of `MVTFeature._getOverzoomedPoint`: scale the point by
`1 << zoomDistance` and subtract the child tile's offset within the
parent times the tile size. -/
def getOverzoomedPoint (point : ℚ × ℚ) (tileSize : ℚ)
    (currentTile parentTile : TileKeyR) : ℚ × ℚ :=
  let zoomDistance := currentTile.z - parentTile.z
  let scale : ℚ := 2 ^ zoomDistance
  let xScale := point.1 * scale
  let yScale := point.2 * scale
  let xtileOffset : ℚ := (currentTile.x % 2 ^ zoomDistance : ℕ)
  let ytileOffset : ℚ := (currentTile.y % 2 ^ zoomDistance : ℕ)
  (xScale - xtileOffset * tileSize, yScale - ytileOffset * tileSize)

/-- Embedding of `MVTFeature._getPoint`: divide raw geometry coordinates
by the per-tile divisor, then apply the overzoom transform when the tile
context carries a `parentId`. -/
def getPoint (coords : ℚ × ℚ) (divisor : ℚ) (tileSize : ℚ)
    (currentTile : TileKeyR) (parentId : Option TileKeyR) : ℚ × ℚ :=
  let point := (coords.1 / divisor, coords.2 / divisor)
  match parentId with
  | some parentTile => getOverzoomedPoint point tileSize currentTile parentTile
  | none => point

/-! ### Default feature-id extraction
(MVTSource.defaultGetIDForLayerFeature) -/

/-- A JavaScript property value as stored in a vector-tile feature's
property bag. -/
inductive PropVal where
  | str (s : String)
  | num (q : ℚ)
  | boolean (b : Bool)
  | nullish
  deriving DecidableEq, Repr

/-- Embedding of the vector-tile feature fields consulted during id
extraction: the optional protobuf-level `id` and the property bag. -/
structure VTFeatureId where
  id : Option PropVal
  properties : List (String × PropVal)
  deriving DecidableEq, Repr

/-- Embedding of `MVTSource._extractFeatureProperty`: the property's
value when it is a string or a number, `null` otherwise. -/
def extractFeatureProperty (properties : List (String × PropVal))
    (propertyName : String) : Option PropVal :=
  match properties.lookup propertyName with
  | some (PropVal.str s) => some (PropVal.str s)
  | some (PropVal.num q) => some (PropVal.num q)
  | _ => none

/-- The loop over the common id field names `['id', 'Id', 'ID']` in
`defaultGetIDForLayerFeature`. -/
def firstCommonIdField (properties : List (String × PropVal)) : Option PropVal :=
  match extractFeatureProperty properties "id" with
  | some v => some v
  | none =>
    match extractFeatureProperty properties "Id" with
    | some v => some v
    | none => extractFeatureProperty properties "ID"

/-- Embedding of `MVTSource.defaultGetIDForLayerFeature`: try the
configured default property, then the common names `id`, `Id`, `ID`,
then a generated pseudo-random id (the generator's output is passed in
as `fresh`).  The feature's own protobuf `id` field is never read. -/
def defaultGetIDForLayerFeature (defaultFeatureId : String)
    (feature : VTFeatureId) (fresh : String) : PropVal :=
  match extractFeatureProperty feature.properties defaultFeatureId with
  | some v => v
  | none =>
    match firstCommonIdField feature.properties with
    | some v => v
    | none => PropVal.str ("feature_" ++ fresh)

/-! ### JavaScript string primitives used by the style resolver -/

/-- Whether `pat` occurs at the head of `s`. -/
def charsStartsWith : List Char → List Char → Bool
  | _, [] => true
  | [], _ :: _ => false
  | c :: cs, p :: ps => c = p && charsStartsWith cs ps

/-- JavaScript `String.prototype.includes`. -/
def charsContains (s pat : List Char) : Bool :=
  match s with
  | [] => charsStartsWith [] pat
  | _ :: rest => charsStartsWith s pat || charsContains rest pat

/-- JavaScript `String.prototype.replace` with a string pattern:
replaces only the first occurrence, returns the string unchanged when
the pattern does not occur. -/
def charsReplaceFirst (pat rep : List Char) : List Char → List Char
  | [] => if charsStartsWith [] pat then rep else []
  | c :: rest =>
    if charsStartsWith (c :: rest) pat then rep ++ (c :: rest).drop pat.length
    else c :: charsReplaceFirst pat rep rest

/-- String-level wrapper for `charsContains`. -/
def jsIncludes (s pat : String) : Bool :=
  charsContains s.toList pat.toList

/-- String-level wrapper for `charsReplaceFirst`. -/
def jsReplaceFirst (s pat rep : String) : String :=
  ⟨charsReplaceFirst pat.toList rep.toList s.toList⟩

/-! ### Style resolver (MVTSource.getStyleForFeature, lines 1416-1451) -/

/-- The scalar fields of the `FeatureStyle` interface of src/types.ts. -/
structure BaseStyle where
  fillStyle : Option String := none
  fillOpacity : Option ℚ := none
  strokeStyle : Option String := none
  lineWidth : Option ℚ := none
  radius : Option ℚ := none
  deriving DecidableEq, Repr

/-- A `FeatureStyle`: scalar fields plus the optional embedded
`selected` and `hover` override blocks. -/
structure FeatureStyleR where
  base : BaseStyle := {}
  selected : Option BaseStyle := none
  hover : Option BaseStyle := none
  deriving DecidableEq, Repr

/-- JavaScript object spread `{ ...r, ...b }` over the scalar style
fields: a field present in `b` overrides the one in `r`. -/
def overrideField {α : Type} (base upd : Option α) : Option α :=
  match upd with
  | some v => some v
  | none => base

/-- Merge an override block over a result style, JavaScript-spread
style. -/
def mergeBlock (r b : BaseStyle) : BaseStyle where
  fillStyle := overrideField r.fillStyle b.fillStyle
  fillOpacity := overrideField r.fillOpacity b.fillOpacity
  strokeStyle := overrideField r.strokeStyle b.strokeStyle
  lineWidth := overrideField r.lineWidth b.lineWidth
  radius := overrideField r.radius b.radius

/-- JavaScript truthiness of an optional string (absent and `''` are
falsy). -/
def jsTruthyStr (s : Option String) : Bool :=
  match s with
  | none => false
  | some v => v ≠ ""

/-- JavaScript truthiness of an optional number (absent and `0` are
falsy). -/
def jsTruthyNum (q : Option ℚ) : Bool :=
  match q with
  | none => false
  | some v => v ≠ 0

/-- Embedding of `MVTSource.getSelectedStyle` with the
`DEFAULT_COLORS.SELECTED_*` palette, by geometry type
(1 = Point, 2 = LineString, 3 = Polygon). -/
def getSelectedStyle (geomType : ℕ) : BaseStyle :=
  if geomType = 1 then
    { fillStyle := some "rgba(255,255,0,0.8)", radius := some 7 }
  else if geomType = 2 then
    { strokeStyle := some "rgba(255,25,0,0.8)", lineWidth := some 5 }
  else if geomType = 3 then
    { fillStyle := some "rgba(255,140,0,0.4)"
      strokeStyle := some "rgba(255,140,0,1)"
      lineWidth := some 3 }
  else {}

/-- Embedding of `MVTSource.getStyleForFeature`.  The resolved base
style (the configured style, already applied to the feature if it is a
function) comes in as `style`; `isSelected` and `isHovered` are the
membership tests on the id sets.  The `selected` and `hover` blocks are
deleted from the result before compositing. -/
def getStyleForFeature (style : FeatureStyleR) (isSelected isHovered : Bool)
    (geomType : ℕ) : FeatureStyleR :=
  let resultStyle := style.base
  let composed : BaseStyle :=
    if isSelected ∧ style.selected.isSome then
      mergeBlock resultStyle (style.selected.getD {})
    else if isHovered ∧ style.hover.isSome then
      mergeBlock resultStyle (style.hover.getD {})
    else if isSelected ∧ style.selected.isNone then
      let computedSelectedStyle := getSelectedStyle geomType
      { resultStyle with
        fillStyle :=
          if ¬ jsTruthyStr resultStyle.fillStyle ∨ resultStyle.fillStyle = some "transparent" then
            computedSelectedStyle.fillStyle
          else resultStyle.fillStyle
        strokeStyle :=
          if ¬ jsTruthyStr resultStyle.strokeStyle then computedSelectedStyle.strokeStyle
          else resultStyle.strokeStyle
        lineWidth :=
          if ¬ jsTruthyNum resultStyle.lineWidth then computedSelectedStyle.lineWidth
          else resultStyle.lineWidth }
    else if isHovered ∧ style.hover.isNone then
      { resultStyle with
        fillStyle :=
          match resultStyle.fillStyle with
          | none => none
          | some s =>
            if s ≠ "" ∧ ¬ jsIncludes s "rgba(" then
              some (jsReplaceFirst (jsReplaceFirst s "0.3" "0.5") "0.4" "0.6")
            else some s }
    else resultStyle
  { base := composed, selected := none, hover := none }

/-- The hover fill nudge of `getStyleForFeature`, as a standalone
description used to state Claim C4: the fill style string is rewritten
(first `0.3` to `0.5`, then first `0.4` to `0.6`) only when it is a
non-empty string that does not contain the substring `rgba(`. -/
def hoverNudgeFill (fillStyle : Option String) : Option String :=
  match fillStyle with
  | none => none
  | some s =>
    if s ≠ "" ∧ ¬ jsIncludes s "rgba(" then
      some (jsReplaceFirst (jsReplaceFirst s "0.3" "0.5") "0.4" "0.6")
    else some s

/-! ### Tile availability oracle
(MVTSource._isTileAvailable and MVTSource._xhrRequest) -/

/-- A tile availability manifest: per zoom level, per x coordinate, a
list of closed `[yStart, yEnd]` ranges (the `TileManifest` interface of
src/types.ts, with the numeric string keys parsed). -/
abbrev TileManifestR := List (ℕ × List (ℕ × List (ℤ × ℤ)))

/-- Embedding of `MVTSource._isTileAvailable`: with no resolved
manifest every tile is available; otherwise the zoom key must exist, the
x key must exist under it, and y must fall in one of the closed
ranges. -/
def isTileAvailable (resolvedManifest : Option TileManifestR)
    (z x : ℕ) (y : ℤ) : Bool :=
  match resolvedManifest with
  | none => true
  | some manifest =>
    match manifest.lookup z with
    | none => false
    | some xs =>
      match xs.lookup x with
      | none => false
      | some yRanges =>
        yRanges.any (fun r => decide (r.1 ≤ y ∧ y ≤ r.2))

/-- A tile context as far as the fetch path consults it: its own key
and the optional parent key set by overzoom (content fields such as the
canvas are irrelevant to the fetch decision). -/
structure TileCtxKeys where
  id : TileKeyR
  parentId : Option TileKeyR := none
  deriving DecidableEq, Repr

/-- Outcome of `MVTSource._xhrRequest`: either only the debug
annotation is drawn, or a GET request for the tile is issued. -/
inductive XhrOutcome where
  | debugOnly
  | requested (z x : ℕ) (y : ℤ)
  deriving DecidableEq, Repr

/-- Embedding of `MVTSource._xhrRequest` up to the point the request is
sent: resolve `parentId || id`, consult the availability oracle, and
either draw debug info only or issue the request for that tile. -/
def xhrRequest (resolvedManifest : Option TileManifestR)
    (tileContext : TileCtxKeys) : XhrOutcome :=
  let tile := tileContext.parentId.getD tileContext.id
  if isTileAvailable resolvedManifest tile.z tile.x (tile.y : ℤ) then
    XhrOutcome.requested tile.z tile.x (tile.y : ℤ)
  else XhrOutcome.debugOnly

/-! ### Tile caches with FIFO caps
(MVTSource._setVisibleTile and MVTSource._setTileDrawn) -/

/-- The content of a cached tile context, reduced to its identifying
key (the cache bound claims do not depend on the other fields). -/
structure TileCtxR where
  id : String
  deriving DecidableEq, Repr

/-- A JavaScript object used as an ordered map: an association list in
key insertion order. -/
abbrev TileCache := List (String × TileCtxR)

/-- JavaScript `obj[k] = v`: overwrite in place when the key exists,
append otherwise. -/
def objSet (cache : TileCache) (k : String) (v : TileCtxR) : TileCache :=
  if (cache.lookup k).isSome then
    cache.map (fun p => if p.1 = k then (k, v) else p)
  else cache ++ [(k, v)]

/-- JavaScript `delete obj[k]`. -/
def objDelete (cache : TileCache) (k : String) : TileCache :=
  cache.filter (fun p => p.1 ≠ k)

/-- `MVTSource.MAX_VISIBLE_TILES_SIZE`. -/
def maxVisibleTilesSize : ℕ := 50

/-- `MVTSource.MAX_TILES_CACHE_SIZE`. -/
def maxTilesCacheSize : ℕ := 100

/-- The eviction loop shared by both caches: delete the listed keys,
oldest first (`Object.keys(...).slice(0, len - cap + 1)` then
`delete`). -/
def evictKeys (cache : TileCache) (keys : List String) : TileCache :=
  keys.foldl objDelete cache

/-- Embedding of `MVTSource._setVisibleTile`: evict the oldest entries
down to `cap - 1` when the cap is reached, then insert. -/
def setVisibleTile (cache : TileCache) (tc : TileCtxR) : TileCache :=
  let visibleTileIds := cache.map Prod.fst
  let cache1 :=
    if visibleTileIds.length ≥ maxVisibleTilesSize then
      evictKeys cache (visibleTileIds.take (visibleTileIds.length - maxVisibleTilesSize + 1))
    else cache
  objSet cache1 tc.id tc

/-- Embedding of `MVTSource._setTileDrawn`: a no-op unless caching is
enabled; otherwise the same FIFO-capped insertion with cap 100. -/
def setTileDrawn (cacheEnabled : Bool) (cache : TileCache) (tc : TileCtxR) : TileCache :=
  if ¬ cacheEnabled then cache
  else
    let drawnTileIds := cache.map Prod.fst
    let cache1 :=
      if drawnTileIds.length ≥ maxTilesCacheSize then
        evictKeys cache (drawnTileIds.take (drawnTileIds.length - maxTilesCacheSize + 1))
      else cache
    objSet cache1 tc.id tc

/-- The tile caches of a source. -/
structure TileCaches where
  visibleTiles : TileCache := []
  tilesDrawn : TileCache := []
  deriving DecidableEq, Repr

/-- Embedding of `MVTSource.getTile` as far as the caches are
concerned: `drawTile` returns the cached context when the tile was
already drawn (no cache mutation) or creates a fresh context (the
asynchronous fetch that may later mark it drawn has not settled yet),
and the returned context is recorded visible. -/
def getTile (caches : TileCaches) (id : String) : TileCaches :=
  let tileContext :=
    match caches.tilesDrawn.lookup id with
    | some tc => tc
    | none => { id := id }
  { caches with visibleTiles := setVisibleTile caches.visibleTiles tileContext }

/-! ### Selection, hover, replacement: the source state machine

State fields mirror `MVTSource`: the keys of `_featureIndex`, the
contents of `_selectedFeatureIds` and `_hoveredFeatureIds`, the
`_multipleSelection` flag, the keys of `_replacedFeatures` and
`_geoJSONOverlays`, and the feature ids of in-flight
`getReplacementFeature` awaits inside `_callFeatureSelectionCallback`
(the only suspension point of that method).  JavaScript `Set` and
object-key semantics are insertion-ordered, hence lists with
membership-guarded insertion. -/
structure SrcState where
  index : List String := []
  selected : List String := []
  hovered : List String := []
  multiSel : Bool := false
  replaced : List String := []
  overlays : List String := []
  pending : List String := []
  deriving DecidableEq, Repr

/-- Immutable configuration consulted by the selection paths: whether a
`featureSelectionCallback` and a `getReplacementFeature` were passed in
the options. -/
structure SrcCfg where
  hasSelectionCallback : Bool
  hasReplacementFn : Bool
  deriving DecidableEq, Repr

/-- `Set.add` / first-time `obj[k] = v`: append when absent. -/
def sAdd (id : String) (l : List String) : List String :=
  if id ∈ l then l else l ++ [id]

/-- `Set.delete` / `delete obj[k]`. -/
def sDel (id : String) (l : List String) : List String :=
  l.filter (fun x => x ≠ id)

/-- Embedding of `MVTSource.deselectAllFeatures`: snapshot the selected
ids, clear the set, and for each previously selected id fire the
selection callback (no replaced/overlay writes on the `selected=false`
path) and remove its overlay and replaced record. -/
def deselectAllFeatures (s : SrcState) : SrcState :=
  let selectedIds := s.selected
  let s := { s with selected := [] }
  selectedIds.foldl
    (fun st featureId =>
      { st with
        overlays := sDel featureId st.overlays
        replaced := sDel featureId st.replaced })
    s

/-- Embedding of `MVTSource._selectFeature`: without multiple selection
deselect everything first; add the id to the selected set whether or not
the feature is materialized; when the feature is materialized and a
selection callback is configured, `_callFeatureSelectionCallback`
starts, and it suspends on `getReplacementFeature` exactly when that
callback is configured and no replaced record exists yet. -/
def selectFeature (cfg : SrcCfg) (s : SrcState) (featureId : String) : SrcState :=
  let s := if ¬ s.multiSel then deselectAllFeatures s else s
  let s := { s with selected := sAdd featureId s.selected }
  if featureId ∈ s.index then
    if cfg.hasSelectionCallback ∧ cfg.hasReplacementFn ∧ featureId ∉ s.replaced then
      { s with pending := s.pending ++ [featureId] }
    else s
  else s

/-- Embedding of `MVTSource._deselectFeature`: remove the id from the
selected set, fire the callback on the synchronous `selected=false`
path, remove the overlay and the replaced record.  Nothing cancels a
pending replacement await. -/
def deselectFeature (s : SrcState) (featureId : String) : SrcState :=
  { s with
    selected := sDel featureId s.selected
    overlays := sDel featureId s.overlays
    replaced := sDel featureId s.replaced }

/-- Settlement of the oldest in-flight `getReplacementFeature` await
(the code after `await Promise.resolve(this._getReplacementFeature(...))`
in `_callFeatureSelectionCallback`): when the promise resolves with a
non-null feature, the result is stored in `_replacedFeatures` and a
GeoJSON overlay is registered — with no re-check of the selected set. -/
def resolveReplacement (s : SrcState) (nonNull : Bool) : SrcState :=
  match s.pending with
  | [] => s
  | featureId :: rest =>
    let s := { s with pending := rest }
    if nonNull then
      { s with
        replaced := sAdd featureId s.replaced
        overlays := sAdd featureId (sDel featureId s.overlays) }
    else s

/-- Embedding of `MVTSource._setFeatureHover` with `hovered = true`:
clear all hovered features, then add this one (unconditionally, the
feature lookup only flips the materialized feature's flag). -/
def hoverFeature (s : SrcState) (featureId : String) : SrcState :=
  { s with hovered := sAdd featureId [] }

/-- Embedding of `MVTSource.clearAllHoveredFeatures`. -/
def clearAllHoveredFeatures (s : SrcState) : SrcState :=
  { s with hovered := [] }

/-- Embedding of `MVTSource.registerFeature`. -/
def registerFeature (s : SrcState) (featureId : String) : SrcState :=
  { s with index := sAdd featureId s.index }

/-- Embedding of `MVTSource.unregisterFeature`: removes the id from the
index and from both identity sets. -/
def unregisterFeature (s : SrcState) (featureId : String) : SrcState :=
  { s with
    index := sDel featureId s.index
    selected := sDel featureId s.selected
    hovered := sDel featureId s.hovered }

/-- Embedding of `MVTSource.setSelectedFeatures`: more than one id
switches multiple-selection mode on, then everything is deselected and
each id selected in turn. -/
def setSelectedFeatures (cfg : SrcCfg) (s : SrcState)
    (featuresIds : List String) : SrcState :=
  let s := if featuresIds.length > 1 then { s with multiSel := true } else s
  let s := deselectAllFeatures s
  featuresIds.foldl (selectFeature cfg) s

/-- Embedding of `MVTSource.dispose` for the state fields: overlays
removed, everything deselected, index and sets cleared.  The pending
replacement awaits are not cancelled by the source. -/
def disposeSource (s : SrcState) : SrcState :=
  let s := { s with overlays := [] }
  let s := deselectAllFeatures s
  { s with
    index := []
    selected := []
    hovered := []
    replaced := [] }

/-- The public mutations of Claim C2 plus the internal steps needed for
Claim C1's settlement analysis. -/
inductive SrcOp where
  | register (featureId : String)
  | unregister (featureId : String)
  | select (featureId : String)
  | deselect (featureId : String)
  | setSelected (featuresIds : List String)
  | deselectAll
  | clearHovered
  | hover (featureId : String)
  | setStyleOp
  | setFilterOp
  | dispose
  | resolve (nonNull : Bool)
  deriving DecidableEq, Repr

/-- One mutation step of the source.  `setStyle` and `setFilter` do not
touch the identity sets, the index, the overlays, or the replacement
records. -/
def applyOp (cfg : SrcCfg) (s : SrcState) : SrcOp → SrcState
  | SrcOp.register featureId => registerFeature s featureId
  | SrcOp.unregister featureId => unregisterFeature s featureId
  | SrcOp.select featureId => selectFeature cfg s featureId
  | SrcOp.deselect featureId => deselectFeature s featureId
  | SrcOp.setSelected featuresIds => setSelectedFeatures cfg s featuresIds
  | SrcOp.deselectAll => deselectAllFeatures s
  | SrcOp.clearHovered => clearAllHoveredFeatures s
  | SrcOp.hover featureId => hoverFeature s featureId
  | SrcOp.setStyleOp => s
  | SrcOp.setFilterOp => s
  | SrcOp.dispose => disposeSource s
  | SrcOp.resolve nonNull => resolveReplacement s nonNull

/-- Run a sequence of mutation steps. -/
def runOps (cfg : SrcCfg) (s : SrcState) (ops : List SrcOp) : SrcState :=
  ops.foldl (applyOp cfg) s

/-- A state is settled when no replacement await is in flight. -/
def settled (s : SrcState) : Prop := s.pending = []

/-- The registration invariant of Claim C2: every selected id and every
hovered id is a key of the feature index. -/
def regInvariant (s : SrcState) : Prop :=
  (∀ id ∈ s.selected, id ∈ s.index) ∧ (∀ id ∈ s.hovered, id ∈ s.index)

/-- Side condition under which Claim C2's invariant is actually
preserved: ids handed to `setSelectedFeatures`, `_selectFeature` and
`_setFeatureHover` must be registered at that moment. -/
def opRegistered (s : SrcState) : SrcOp → Prop
  | SrcOp.select featureId => featureId ∈ s.index
  | SrcOp.setSelected featuresIds => ∀ id ∈ featuresIds, id ∈ s.index
  | SrcOp.hover featureId => featureId ∈ s.index
  | _ => True

instance : DecidablePred settled := fun s => by
  unfold settled; infer_instance

instance (s : SrcState) : Decidable (regInvariant s) := by
  unfold regInvariant; infer_instance

instance (s : SrcState) (op : SrcOp) : Decidable (opRegistered s op) := by
  unfold opRegistered
  cases op <;> infer_instance

/-! ### Set-list membership lemmas -/

theorem mem_of_mem_sAdd {x id : String} {l : List String} (h : x ∈ sAdd id l) :
    x = id ∨ x ∈ l := by
  unfold sAdd at h
  split at h
  · exact Or.inr h
  · rcases List.mem_append.mp h with h1 | h1
    · exact Or.inr h1
    · simp only [List.mem_singleton] at h1
      exact Or.inl h1

theorem mem_sAdd_of_mem {x id : String} {l : List String} (h : x ∈ l) :
    x ∈ sAdd id l := by
  unfold sAdd
  split
  · exact h
  · exact List.mem_append_left _ h

theorem mem_of_mem_sDel {x id : String} {l : List String} (h : x ∈ sDel id l) :
    x ∈ l ∧ x ≠ id := by
  unfold sDel at h
  simpa using List.mem_filter.mp h

theorem mem_sDel_of_mem {x id : String} {l : List String} (hx : x ∈ l)
    (hne : x ≠ id) : x ∈ sDel id l := by
  unfold sDel
  exact List.mem_filter.mpr ⟨hx, by simpa using hne⟩

/-! ### Projection lemmas for the source state machine -/

theorem clearFold_proj (l : List String) (s : SrcState) :
    (l.foldl (fun st featureId =>
      { st with
        overlays := sDel featureId st.overlays
        replaced := sDel featureId st.replaced }) s).index = s.index ∧
    (l.foldl (fun st featureId =>
      { st with
        overlays := sDel featureId st.overlays
        replaced := sDel featureId st.replaced }) s).selected = s.selected ∧
    (l.foldl (fun st featureId =>
      { st with
        overlays := sDel featureId st.overlays
        replaced := sDel featureId st.replaced }) s).hovered = s.hovered ∧
    (l.foldl (fun st featureId =>
      { st with
        overlays := sDel featureId st.overlays
        replaced := sDel featureId st.replaced }) s).pending = s.pending := by
  induction l generalizing s with
  | nil => exact ⟨rfl, rfl, rfl, rfl⟩
  | cons a t ih => simpa using ih _

theorem deselectAll_index (s : SrcState) :
    (deselectAllFeatures s).index = s.index := by
  unfold deselectAllFeatures
  exact (clearFold_proj _ _).1

theorem deselectAll_selected (s : SrcState) :
    (deselectAllFeatures s).selected = [] := by
  unfold deselectAllFeatures
  exact (clearFold_proj _ _).2.1

theorem deselectAll_hovered (s : SrcState) :
    (deselectAllFeatures s).hovered = s.hovered := by
  unfold deselectAllFeatures
  exact (clearFold_proj _ _).2.2.1

theorem selectFeature_index (cfg : SrcCfg) (s : SrcState) (id : String) :
    (selectFeature cfg s id).index = s.index := by
  cases hms : s.multiSel <;>
    simp only [selectFeature, hms] <;>
    (repeat' split) <;> simp_all [deselectAll_index]

theorem selectFeature_selected (cfg : SrcCfg) (s : SrcState) (id : String) :
    (selectFeature cfg s id).selected =
      sAdd id (if s.multiSel then s.selected else []) := by
  cases hms : s.multiSel <;>
    simp only [selectFeature, hms] <;>
    (repeat' split) <;> simp_all [deselectAll_selected]

theorem selectFeature_hovered (cfg : SrcCfg) (s : SrcState) (id : String) :
    (selectFeature cfg s id).hovered = s.hovered := by
  cases hms : s.multiSel <;>
    simp only [selectFeature, hms] <;>
    (repeat' split) <;> simp_all [deselectAll_hovered]

theorem deselectAll_regInv {s : SrcState} (h : regInvariant s) :
    regInvariant (deselectAllFeatures s) := by
  refine ⟨?_, ?_⟩
  · rw [deselectAll_selected]
    intro id hid
    exact absurd hid (List.not_mem_nil id)
  · rw [deselectAll_hovered, deselectAll_index]
    exact h.2

theorem selectFeature_regInv {cfg : SrcCfg} {s : SrcState} {id : String}
    (hInv : regInvariant s) (hid : id ∈ s.index) :
    regInvariant (selectFeature cfg s id) := by
  refine ⟨?_, ?_⟩
  · rw [selectFeature_selected, selectFeature_index]
    intro x hx
    rcases mem_of_mem_sAdd hx with rfl | hx1
    · exact hid
    · split at hx1
      · exact hInv.1 x hx1
      · exact absurd hx1 (List.not_mem_nil x)
  · rw [selectFeature_hovered, selectFeature_index]
    exact hInv.2

theorem foldl_selectFeature_regInv (cfg : SrcCfg) (ids : List String)
    (s : SrcState) (hInv : regInvariant s) (hids : ∀ id ∈ ids, id ∈ s.index) :
    regInvariant (ids.foldl (selectFeature cfg) s) := by
  induction ids generalizing s with
  | nil => exact hInv
  | cons a t ih =>
    have h1 : regInvariant (selectFeature cfg s a) :=
      selectFeature_regInv hInv (hids a (by simp))
    have h2 : ∀ id ∈ t, id ∈ (selectFeature cfg s a).index := by
      rw [selectFeature_index]
      intro id hidt
      exact hids id (by simp [hidt])
    simpa using ih _ h1 h2

/-! ### Claim C1 -/

/-- Claim C1 (code bug): the source has no cancellation of a pending
`getReplacementFeature` callback.  The repository's own unit test
(`MVTSource.test.ts`, race-condition suite) and the specification demand
that a result resolving after deselection be discarded, but
`_callFeatureSelectionCallback` re-checks nothing after its `await`: in
the trace select `"f"`, deselect `"f"`, then settle the pending
replacement with a non-null feature, the settled state carries a GeoJSON
overlay and a replaced-feature record for `"f"` even though `"f"` is no
longer selected — violating the claimed invariant. -/
theorem C1_replacement_survives_deselection :
    settled (runOps ⟨true, true⟩ { index := ["f"] }
      [SrcOp.select "f", SrcOp.deselect "f", SrcOp.resolve true]) ∧
    "f" ∈ (runOps ⟨true, true⟩ { index := ["f"] }
      [SrcOp.select "f", SrcOp.deselect "f", SrcOp.resolve true]).overlays ∧
    "f" ∈ (runOps ⟨true, true⟩ { index := ["f"] }
      [SrcOp.select "f", SrcOp.deselect "f", SrcOp.resolve true]).replaced ∧
    "f" ∉ (runOps ⟨true, true⟩ { index := ["f"] }
      [SrcOp.select "f", SrcOp.deselect "f", SrcOp.resolve true]).selected := by
  decide

/-! ### Claim C2 -/

/-- Claim C2 (counterexample): `setSelectedFeatures(S)` adds every id of
`S` to the selected set whether or not it is registered, so with an
empty feature index the selected set is not a subset of the index's
keys. -/
theorem C2_counterexample :
    ¬ regInvariant (applyOp ⟨false, false⟩ {} (SrcOp.setSelected ["x"])) := by
  decide

/-- Claim C2 (amended): the subset invariant for the selected and the
hovered id sets is preserved by every public mutation provided the ids
handed to `setSelectedFeatures` (and to the selection and hover paths)
are registered at that moment; without that proviso selection of
not-yet-registered ids is deliberately admitted (it is how selections
survive zoom changes). -/
theorem C2_regInvariant_preserved (cfg : SrcCfg) (s : SrcState) (op : SrcOp)
    (hInv : regInvariant s) (hOk : opRegistered s op) :
    regInvariant (applyOp cfg s op) := by
  cases op with
  | register featureId =>
    refine ⟨?_, ?_⟩
    · intro x hx
      exact mem_sAdd_of_mem (hInv.1 x hx)
    · intro x hx
      exact mem_sAdd_of_mem (hInv.2 x hx)
  | unregister featureId =>
    refine ⟨?_, ?_⟩
    · intro x hx
      obtain ⟨hx1, hne⟩ := mem_of_mem_sDel hx
      exact mem_sDel_of_mem (hInv.1 x hx1) hne
    · intro x hx
      obtain ⟨hx1, hne⟩ := mem_of_mem_sDel hx
      exact mem_sDel_of_mem (hInv.2 x hx1) hne
  | select featureId => exact selectFeature_regInv hInv hOk
  | deselect featureId =>
    refine ⟨?_, ?_⟩
    · intro x hx
      exact hInv.1 x (mem_of_mem_sDel hx).1
    · exact hInv.2
  | setSelected featuresIds =>
    show regInvariant (setSelectedFeatures cfg s featuresIds)
    unfold setSelectedFeatures
    split
    · refine foldl_selectFeature_regInv cfg featuresIds _
        (deselectAll_regInv ⟨hInv.1, hInv.2⟩) ?_
      intro id hid
      rw [deselectAll_index]
      exact hOk id hid
    · refine foldl_selectFeature_regInv cfg featuresIds _
        (deselectAll_regInv hInv) ?_
      intro id hid
      rw [deselectAll_index]
      exact hOk id hid
  | deselectAll => exact deselectAll_regInv hInv
  | clearHovered =>
    exact ⟨hInv.1, fun x hx => absurd hx (List.not_mem_nil x)⟩
  | hover featureId =>
    refine ⟨hInv.1, ?_⟩
    intro x hx
    simp only [applyOp, hoverFeature] at hx
    rcases mem_of_mem_sAdd hx with rfl | hx1
    · exact hOk
    · exact absurd hx1 (List.not_mem_nil x)
  | setStyleOp => exact hInv
  | setFilterOp => exact hInv
  | dispose =>
    exact ⟨fun x hx => absurd hx (List.not_mem_nil x),
           fun x hx => absurd hx (List.not_mem_nil x)⟩
  | resolve nonNull =>
    show regInvariant (resolveReplacement s nonNull)
    unfold resolveReplacement
    cases hp : s.pending with
    | nil => exact hInv
    | cons fid rest =>
      simp only []
      split <;> exact ⟨hInv.1, hInv.2⟩

/-- Claim C2 witness: the preservation theorem applied at a concrete
state whose single selected id is registered. -/
theorem C2_witness :
    regInvariant (applyOp ⟨false, false⟩ { index := ["a"] }
      (SrcOp.setSelected ["a"])) :=
  C2_regInvariant_preserved ⟨false, false⟩ { index := ["a"] }
    (SrcOp.setSelected ["a"]) (by decide) (by decide)

/-! ### Claim C3 -/

/-- Claim C3 (counterexample): the default id extractor never consults
the vector-tile feature's own `id` field.  A feature carrying protobuf
id 42 and a `fid` property 7 gets id 7, not 42, so the claimed fallback
chain (feature id first) is wrong. -/
theorem C3_counterexample :
    defaultGetIDForLayerFeature "fid"
      ⟨some (PropVal.num 42), [("fid", PropVal.num 7)]⟩ "r1" = PropVal.num 7 ∧
    (⟨some (PropVal.num 42), [("fid", PropVal.num 7)]⟩ : VTFeatureId).id
      = some (PropVal.num 42) ∧
    PropVal.num 7 ≠ PropVal.num 42 := by
  decide

/-- Claim C3 (amended): the default extractor's fallback chain is the
configured default property first, then the common property names `id`,
`Id`, `ID` in that order, and finally a generated pseudo-random id; the
feature's own protobuf `id` field is never consulted (the result is
independent of it). -/
theorem C3_defaultId_chain (dflt : String) (f : VTFeatureId) (fresh : String) :
    (defaultGetIDForLayerFeature dflt ⟨none, f.properties⟩ fresh
      = defaultGetIDForLayerFeature dflt f fresh) ∧
    (∀ v, extractFeatureProperty f.properties dflt = some v →
      defaultGetIDForLayerFeature dflt f fresh = v) ∧
    (∀ v, extractFeatureProperty f.properties dflt = none →
      firstCommonIdField f.properties = some v →
      defaultGetIDForLayerFeature dflt f fresh = v) ∧
    (extractFeatureProperty f.properties dflt = none →
      firstCommonIdField f.properties = none →
      defaultGetIDForLayerFeature dflt f fresh
        = PropVal.str ("feature_" ++ fresh)) := by
  refine ⟨rfl, ?_, ?_, ?_⟩
  · intro v hv
    unfold defaultGetIDForLayerFeature
    rw [hv]
  · intro v h1 h2
    unfold defaultGetIDForLayerFeature
    rw [h1, h2]
  · intro h1 h2
    unfold defaultGetIDForLayerFeature
    rw [h1, h2]

/-- Claim C3 witness: the amended chain applied to a feature whose only
usable property is `Id`. -/
theorem C3_witness :
    defaultGetIDForLayerFeature "fid"
      ⟨some (PropVal.num 1), [("Id", PropVal.str "k")]⟩ "ab"
      = PropVal.str "k" :=
  (C3_defaultId_chain "fid"
    ⟨some (PropVal.num 1), [("Id", PropVal.str "k")]⟩ "ab").2.2.1
    (PropVal.str "k") (by decide) (by decide)

/-! ### Claim C4 -/

/-- Claim C4 (counterexample): for a hovered, unselected feature whose
base style has no hover block, the fill opacity is not nudged upward:
with the default polygon fill `rgba(188, 189, 220, 0.5)` the style comes
back exactly equal to the base (the nudge branch skips every fill style
containing `rgba(`), contradicting the claimed fixed upward increment. -/
theorem C4_counterexample :
    getStyleForFeature
      { base := { fillStyle := some "rgba(188, 189, 220, 0.5)"
                  strokeStyle := some "rgba(136, 86, 167, 1)"
                  lineWidth := some 1 } }
      false true 3
    = { base := { fillStyle := some "rgba(188, 189, 220, 0.5)"
                  strokeStyle := some "rgba(136, 86, 167, 1)"
                  lineWidth := some 1 } } := by
  decide

/-- Claim C4 (amended): for a hovered, unselected feature, if the base
style provides a hover block that block is merged over the base
(every field present in the block overrides the base field); otherwise
every field of the result equals the base except possibly the fill
style string, which is rewritten (first `0.3` to `0.5`, then first
`0.4` to `0.6`) only when it is non-empty and does not contain
`rgba(` — there is no general fill-opacity increment. -/
theorem C4_hover_style (style : FeatureStyleR) (geomType : ℕ) :
    (style.hover = none →
      getStyleForFeature style false true geomType =
        { base := { style.base with
            fillStyle := hoverNudgeFill style.base.fillStyle } }) ∧
    (∀ hb, style.hover = some hb →
      getStyleForFeature style false true geomType =
        { base := mergeBlock style.base hb }) := by
  constructor
  · intro hnone
    unfold getStyleForFeature hoverNudgeFill
    simp [hnone]
  · intro hb hsome
    unfold getStyleForFeature
    simp [hsome]

/-- Claim C4 witness: the amended theorem applied to a base fill style
without `rgba(`, where the first `0.3` really is rewritten to `0.5`. -/
theorem C4_witness :
    getStyleForFeature
      { base := { fillStyle := some "hsla(10, 50, 50, 0.3)" } } false true 3
    = { base := { fillStyle := some "hsla(10, 50, 50, 0.5)" } } := by
  refine ((C4_hover_style
    { base := { fillStyle := some "hsla(10, 50, 50, 0.3)" } } 3).1 rfl).trans ?_
  decide

/-! ### Claim C6 -/

/-- Claim C6 (confirmed): for a tile whose requested zoom exceeds
`sourceMaxZoom = m` by `k > 0`, the parent key right-shifts x and y by
`k` (equivalently, divides by `2^k`), and a raw geometry point
`(px, py)` with per-tile divisor `d` maps to canvas coordinates
`((px/d)·2^k − (x mod 2^k)·tileSize, (py/d)·2^k − (y mod 2^k)·tileSize)`. -/
theorem C6_overzoom (m k x y : ℕ) (px py d ts : ℚ) (hk : 0 < k) :
    getParentId (some m) ⟨m + k, x, y⟩ = some ⟨m, x / 2 ^ k, y / 2 ^ k⟩ ∧
    getPoint (px, py) d ts ⟨m + k, x, y⟩ (some ⟨m, x / 2 ^ k, y / 2 ^ k⟩) =
      (px / d * 2 ^ k - ((x % 2 ^ k : ℕ) : ℚ) * ts,
       py / d * 2 ^ k - ((y % 2 ^ k : ℕ) : ℚ) * ts) := by
  have hzd : m + k - m = k := by omega
  have hgt : m + k > m := by omega
  constructor
  · simp [getParentId, hgt, hzd, Nat.shiftRight_eq_div_pow]
  · unfold getPoint getOverzoomedPoint
    simp [hzd]

/-- Claim C6 witness: scenario S1 of the specification, tile
`(z=12, x=5, y=3)` with `sourceMaxZoom = 10`: parent `(10, 1, 0)`, and
point `(64, 128)` with divisor 16 and tile size 256 maps to
`(-240, -736)`. -/
theorem C6_witness :
    getParentId (some 10) ⟨12, 5, 3⟩ = some ⟨10, 1, 0⟩ ∧
    getPoint (64, 128) 16 256 ⟨12, 5, 3⟩ (some ⟨10, 1, 0⟩) = (-240, -736) := by
  have h := C6_overzoom 10 2 5 3 64 128 16 256 (by norm_num)
  norm_num at h
  exact h

/-! ### Claim C7 -/

/-- Claim C7 (confirmed): with a loaded manifest the availability
oracle accepts `(z, x, y)` iff `z` is a manifest key, `x` is a key
under it, and `y` lies in one of the listed closed ranges; with no
manifest every tile is accepted; and a tile rejected by the oracle gets
the debug-only outcome from `_xhrRequest` — no fetch is issued. -/
theorem C7_manifest_oracle :
    (∀ (manifest : TileManifestR) (z x : ℕ) (y : ℤ),
      isTileAvailable (some manifest) z x y = true ↔
        ∃ xs, manifest.lookup z = some xs ∧
          ∃ yRanges, xs.lookup x = some yRanges ∧
            ∃ r ∈ yRanges, r.1 ≤ y ∧ y ≤ r.2) ∧
    (∀ (z x : ℕ) (y : ℤ), isTileAvailable none z x y = true) ∧
    (∀ (rm : Option TileManifestR) (tc : TileCtxKeys),
      isTileAvailable rm (tc.parentId.getD tc.id).z (tc.parentId.getD tc.id).x
        ((tc.parentId.getD tc.id).y : ℤ) = false →
      xhrRequest rm tc = XhrOutcome.debugOnly) := by
  refine ⟨?_, fun z x y => rfl, ?_⟩
  · intro manifest z x y
    cases hz : manifest.lookup z with
    | none =>
      simp only [isTileAvailable, hz]
      constructor
      · intro h
        exact absurd h (by simp)
      · rintro ⟨xs1, hxs1, _⟩
        exact absurd hxs1 (by simp)
    | some xs =>
      cases hx : xs.lookup x with
      | none =>
        simp only [isTileAvailable, hz, hx]
        constructor
        · intro h
          exact absurd h (by simp)
        · rintro ⟨xs1, hxs1, yR1, hyR1, _⟩
          rw [Option.some.injEq] at hxs1
          subst hxs1
          exact absurd hyR1 (by simp [hx])
      | some yRanges =>
        simp only [isTileAvailable, hz, hx]
        constructor
        · intro hany
          obtain ⟨r, hr, hdec⟩ := List.any_eq_true.mp hany
          rw [decide_eq_true_eq] at hdec
          exact ⟨xs, rfl, yRanges, hx, r, hr, hdec.1, hdec.2⟩
        · rintro ⟨xs1, hxs1, yR1, hyR1, r, hr, h1, h2⟩
          rw [Option.some.injEq] at hxs1
          subst hxs1
          rw [hx, Option.some.injEq] at hyR1
          subst hyR1
          exact List.any_eq_true.mpr ⟨r, hr, by simp [h1, h2]⟩
  · intro rm tc h
    simp [xhrRequest, h]

/-- Claim C7 witness: a manifest whose only range at `(z=10, x=1)` is
`[0, 5]` rejects `y = 6` (one greater than the largest `yEnd`), and the
fetch path for that tile draws only the debug annotation. -/
theorem C7_witness :
    xhrRequest (some [(10, [(1, [((0 : ℤ), (5 : ℤ))])])])
      ⟨⟨10, 1, 6⟩, none⟩ = XhrOutcome.debugOnly :=
  C7_manifest_oracle.2.2 (some [(10, [(1, [((0 : ℤ), (5 : ℤ))])])])
    ⟨⟨10, 1, 6⟩, none⟩ (by decide)

/-! ### Claim C10 -/

/-- Claim C10 (confirmed): `projectPointOnLineSegment` is total and
guarded: the guard `lenSq === 0` holds exactly when the segment's
endpoints coincide; in that case the function returns the plain
Euclidean distance from the point to the endpoint without any division,
and in the remaining branch — the only place a division by `lenSq`
occurs — the divisor is non-zero.  The result is a non-negative real
for every input, so `getDistanceFromLine`, which only ever evaluates
this function on consecutive point pairs, never divides by zero. -/
theorem C10_projectPoint_total (p a b : Pt) :
    (a = b → projectPointOnLineSegment p a b =
      Real.sqrt ((p.x - a.x) * (p.x - a.x) + (p.y - a.y) * (p.y - a.y))) ∧
    ((b.x - a.x) * (b.x - a.x) + (b.y - a.y) * (b.y - a.y) = 0 ↔ a = b) ∧
    (a ≠ b → (b.x - a.x) * (b.x - a.x) + (b.y - a.y) * (b.y - a.y) ≠ 0) ∧
    (0 ≤ projectPointOnLineSegment p a b) := by
  have hiff : (b.x - a.x) * (b.x - a.x) + (b.y - a.y) * (b.y - a.y) = 0 ↔ a = b := by
    constructor
    · intro h
      have hx : b.x = a.x := by nlinarith [mul_self_nonneg (b.x - a.x), mul_self_nonneg (b.y - a.y)]
      have hy : b.y = a.y := by nlinarith [mul_self_nonneg (b.x - a.x), mul_self_nonneg (b.y - a.y)]
      exact Pt.ext hx.symm hy.symm
    · rintro rfl
      ring
  refine ⟨?_, hiff, fun hne h0 => hne (hiff.mp h0), ?_⟩
  · rintro rfl
    simp only [projectPointOnLineSegment]
    rw [if_pos (by ring)]
  · simp only [projectPointOnLineSegment]
    split
    · exact Real.sqrt_nonneg _
    · exact Real.sqrt_nonneg _

/-- Claim C10 witness: the degenerate-segment branch at a concrete
point and coincident endpoints. -/
theorem C10_witness :
    projectPointOnLineSegment ⟨3, 4⟩ ⟨1, 1⟩ ⟨1, 1⟩ =
      Real.sqrt ((3 - 1) * (3 - 1) + (4 - 1) * (4 - 1)) :=
  (C10_projectPoint_total ⟨3, 4⟩ ⟨1, 1⟩ ⟨1, 1⟩).1 rfl

/-! ### Claim C5 -/

theorem foldl_min_coe (l : List ℝ) (acc : WithTop ℝ) :
    l.foldl (fun m x => min m ((x : ℝ) : WithTop ℝ)) acc = min acc l.minimum := by
  induction l generalizing acc with
  | nil => simp [List.minimum_nil]
  | cons a t ih =>
    rw [List.foldl_cons, ih, List.minimum_cons, min_assoc]

theorem getDistanceFromLine_minimum (p : Pt) (line : List Pt) :
    getDistanceFromLine p line =
      ((line.zip line.tail).map
        (fun ab => projectPointOnLineSegment p ab.1 ab.2)).minimum := by
  unfold getDistanceFromLine
  split
  · rename_i h
    have hz : line.zip line.tail = [] := by
      match line with
      | [] => rfl
      | [a] => rfl
      | a :: b :: t =>
        exact absurd h (by simp)
    rw [hz]
    simp [List.minimum_nil]
  · have h1 := List.foldl_map
      (fun ab : Pt × Pt => projectPointOnLineSegment p ab.1 ab.2)
      (fun (m : WithTop ℝ) (x : ℝ) => min m (x : WithTop ℝ))
      (line.zip line.tail) (⊤ : WithTop ℝ)
    rw [← h1, foldl_min_coe]
    exact min_eq_right le_top

theorem checkLineClick_fst (p : Pt) (lw : Option ℝ) (best : WithTop ℝ)
    (paths : List (List Pt)) :
    (checkLineClick p paths lw best).1 = true ↔
      ∃ path ∈ paths,
        getDistanceFromLine p path
            < ((jsOrOne lw / 2 + lineClickTolerance : ℝ) : WithTop ℝ) ∧
        getDistanceFromLine p path < best := by
  induction paths with
  | nil => simp [checkLineClick]
  | cons path rest ih =>
    by_cases hcond :
        getDistanceFromLine p path
            < ((jsOrOne lw / 2 + lineClickTolerance : ℝ) : WithTop ℝ) ∧
        getDistanceFromLine p path < best
    · have heq : checkLineClick p (path :: rest) lw best =
          (true, getDistanceFromLine p path) := by
        simp only [checkLineClick]
        rw [if_pos hcond]
      rw [heq]
      simp only [List.mem_cons]
      refine ⟨fun _ => ⟨path, Or.inl rfl, hcond⟩, fun _ => ?_⟩
      simp
    · have heq : checkLineClick p (path :: rest) lw best =
          checkLineClick p rest lw best := by
        simp only [checkLineClick]
        rw [if_neg hcond]
      rw [heq, ih]
      simp only [List.mem_cons]
      constructor
      · rintro ⟨q, hq, hcs⟩
        exact ⟨q, Or.inr hq, hcs⟩
      · rintro ⟨q, hq | hq, hcs⟩
        · subst hq
          exact absurd hcs hcond
        · exact ⟨q, hq, hcs⟩

theorem checkLineClick_snd (p : Pt) (lw : Option ℝ) (best : WithTop ℝ)
    (paths : List (List Pt)) :
    ((checkLineClick p paths lw best).1 = false →
      (checkLineClick p paths lw best).2 = best) ∧
    ((checkLineClick p paths lw best).1 = true →
      ∃ path ∈ paths,
        (checkLineClick p paths lw best).2 = getDistanceFromLine p path ∧
        getDistanceFromLine p path
            < ((jsOrOne lw / 2 + lineClickTolerance : ℝ) : WithTop ℝ) ∧
        getDistanceFromLine p path < best) := by
  induction paths with
  | nil => simp [checkLineClick]
  | cons path rest ih =>
    by_cases hcond :
        getDistanceFromLine p path
            < ((jsOrOne lw / 2 + lineClickTolerance : ℝ) : WithTop ℝ) ∧
        getDistanceFromLine p path < best
    · have heq : checkLineClick p (path :: rest) lw best =
          (true, getDistanceFromLine p path) := by
        simp only [checkLineClick]
        rw [if_pos hcond]
      rw [heq]
      refine ⟨fun h => absurd h (by simp), fun _ => ?_⟩
      exact ⟨path, List.mem_cons_self path rest, rfl, hcond⟩
    · have heq : checkLineClick p (path :: rest) lw best =
          checkLineClick p rest lw best := by
        simp only [checkLineClick]
        rw [if_neg hcond]
      rw [heq]
      refine ⟨ih.1, fun h => ?_⟩
      obtain ⟨q, hq, hcs⟩ := ih.2 h
      exact ⟨q, List.mem_cons_of_mem _ hq, hcs⟩

/-- Claim C5 (confirmed): the LineString hit test computes, per
polyline part, the minimum of the point-to-segment distances over all
consecutive segments; it reports a hit exactly when some part's
distance is strictly below `lineWidth / 2 + 2` (with a falsy — absent
or zero — `lineWidth` defaulting to 1 inside `jsOrOne`) and strictly
below the current best distance; on a hit the best distance becomes
that part's distance, on a miss it is unchanged; a distance exactly
equal to the tolerance is a miss, and a strictly smaller distance (with
fresh `+∞` best) is a hit. -/
theorem C5_lineClick (p : Pt) (paths : List (List Pt)) (lw : Option ℝ)
    (best : WithTop ℝ) :
    ((checkLineClick p paths lw best).1 = true ↔
      ∃ path ∈ paths,
        getDistanceFromLine p path
            < ((jsOrOne lw / 2 + lineClickTolerance : ℝ) : WithTop ℝ) ∧
        getDistanceFromLine p path < best) ∧
    ((checkLineClick p paths lw best).1 = false →
      (checkLineClick p paths lw best).2 = best) ∧
    ((checkLineClick p paths lw best).1 = true →
      ∃ path ∈ paths,
        (checkLineClick p paths lw best).2 = getDistanceFromLine p path) ∧
    (∀ path : List Pt,
      getDistanceFromLine p path
          = ((jsOrOne lw / 2 + lineClickTolerance : ℝ) : WithTop ℝ) →
      (checkLineClick p [path] lw best).1 = false) ∧
    (∀ path : List Pt,
      getDistanceFromLine p path
          < ((jsOrOne lw / 2 + lineClickTolerance : ℝ) : WithTop ℝ) →
      (checkLineClick p [path] lw ⊤).1 = true) ∧
    (∀ line : List Pt,
      getDistanceFromLine p line =
        ((line.zip line.tail).map
          (fun ab => projectPointOnLineSegment p ab.1 ab.2)).minimum) := by
  refine ⟨checkLineClick_fst p lw best paths, (checkLineClick_snd p lw best paths).1,
    ?_, ?_, ?_, fun line => getDistanceFromLine_minimum p line⟩
  · intro h
    obtain ⟨q, hq, hsnd, _⟩ := (checkLineClick_snd p lw best paths).2 h
    exact ⟨q, hq, hsnd⟩
  · intro path heq
    rw [Bool.eq_false_iff]
    intro htrue
    obtain ⟨q, hq, hlt, _⟩ := (checkLineClick_fst p lw best [path]).mp htrue
    rw [List.mem_singleton] at hq
    subst hq
    rw [heq] at hlt
    exact lt_irrefl _ hlt
  · intro path hlt
    refine (checkLineClick_fst p lw ⊤ [path]).mpr ?_
    exact ⟨path, List.mem_singleton_self path, hlt, lt_of_lt_of_le hlt le_top⟩

/-- Claim C5 witness: point `(0, 3)`, segment `(0,0)–(4,0)`,
`lineWidth = 2`: the distance is exactly `2/2 + 2 = 3`, a miss. -/
theorem C5_witness :
    (checkLineClick ⟨0, 3⟩ [[⟨0, 0⟩, ⟨4, 0⟩]] (some 2) ⊤).1 = false := by
  have h9 : Real.sqrt 9 = 3 := by
    rw [show (9 : ℝ) = 3 ^ 2 by norm_num]
    exact Real.sqrt_sq (by norm_num)
  have hd : getDistanceFromLine ⟨0, 3⟩ [⟨0, 0⟩, ⟨4, 0⟩]
      = (((jsOrOne (some 2) / 2 + lineClickTolerance : ℝ)) : WithTop ℝ) := by
    have htol : (jsOrOne (some 2) / 2 + lineClickTolerance : ℝ) = 3 := by
      simp [jsOrOne, lineClickTolerance]
      norm_num
    rw [htol]
    simp only [getDistanceFromLine, projectPointOnLineSegment]
    norm_num
    exact h9
  exact (C5_lineClick ⟨0, 3⟩ [[⟨0, 0⟩, ⟨4, 0⟩]] (some 2) ⊤).2.2.2.1
    [⟨0, 0⟩, ⟨4, 0⟩] hd

/-! ### Claim C8 -/

theorem lookup_none_not_mem {cache : TileCache} {k : String}
    (h : cache.lookup k = none) : k ∉ cache.map Prod.fst := by
  induction cache with
  | nil => simp
  | cons hd t ih =>
    obtain ⟨a, b⟩ := hd
    by_cases hk : k = a
    · subst hk
      simp [List.lookup] at h
    · have h' : t.lookup k = none := by
        simpa [List.lookup, beq_eq_false_iff_ne.mpr hk] using h
      simp only [List.map_cons, List.mem_cons]
      rintro (rfl | hmem)
      · exact hk rfl
      · exact ih h' hmem

theorem objSet_keys (cache : TileCache) (k : String) (v : TileCtxR) :
    (objSet cache k v).map Prod.fst =
      if (cache.lookup k).isSome then cache.map Prod.fst
      else cache.map Prod.fst ++ [k] := by
  unfold objSet
  split
  · rw [List.map_map]
    apply List.map_congr_left
    intro p _
    by_cases hpk : p.1 = k
    · simp [Function.comp, hpk]
    · simp [Function.comp, hpk]
  · simp

theorem objSet_length (cache : TileCache) (k : String) (v : TileCtxR) :
    (objSet cache k v).length ≤ cache.length + 1 := by
  unfold objSet
  split
  · simp
  · simp

theorem objSet_keys_nodup {cache : TileCache} {k : String} {v : TileCtxR}
    (h : (cache.map Prod.fst).Nodup) :
    ((objSet cache k v).map Prod.fst).Nodup := by
  rw [objSet_keys]
  split
  · exact h
  · rename_i hp
    rw [List.nodup_append]
    refine ⟨h, List.nodup_singleton k, ?_⟩
    intro x hx hxk
    rw [List.mem_singleton] at hxk
    subst hxk
    exact lookup_none_not_mem (Option.not_isSome_iff_eq_none.mp hp) hx

theorem evict_take_drop :
    ∀ (cache : TileCache), (cache.map Prod.fst).Nodup →
      ∀ n : ℕ, evictKeys cache ((cache.map Prod.fst).take n) = cache.drop n := by
  intro cache
  induction cache with
  | nil =>
    intro _ n
    cases n <;> rfl
  | cons hd t ih =>
    intro hnd n
    cases n with
    | zero => rfl
    | succ m =>
      obtain ⟨a, b⟩ := hd
      rw [List.map_cons, List.nodup_cons] at hnd
      have hdel : objDelete ((a, b) :: t) a = t := by
        unfold objDelete
        rw [List.filter_cons]
        have hpred : (decide ((a, b).1 ≠ a)) = false := by simp
        rw [hpred]
        simp only [Bool.false_eq_true, if_false]
        refine List.filter_eq_self.mpr ?_
        intro p hp
        have hne : p.1 ≠ a := by
          intro hpa
          have hm := List.mem_map_of_mem Prod.fst hp
          rw [hpa] at hm
          exact hnd.1 hm
        simpa using hne
      simp only [List.map_cons, List.take_succ_cons]
      show evictKeys ((a, b) :: t) (a :: (t.map Prod.fst).take m) = t.drop m
      unfold evictKeys
      rw [List.foldl_cons, hdel]
      exact ih hnd.2 m

theorem setVisibleTile_spec (cache : TileCache) (tc : TileCtxR)
    (hnd : (cache.map Prod.fst).Nodup) :
    (setVisibleTile cache tc).length ≤ maxVisibleTilesSize ∧
    ((setVisibleTile cache tc).map Prod.fst).Nodup := by
  have hlenmap : (cache.map Prod.fst).length = cache.length := List.length_map _ _
  unfold setVisibleTile
  dsimp only
  split
  · rename_i hge
    rw [evict_take_drop cache hnd]
    have hdropnd : ((cache.drop ((cache.map Prod.fst).length - maxVisibleTilesSize + 1)).map
        Prod.fst).Nodup := by
      rw [List.map_drop]
      exact hnd.sublist (List.drop_sublist _ _)
    refine ⟨?_, objSet_keys_nodup hdropnd⟩
    have h1 := objSet_length
      (cache.drop ((cache.map Prod.fst).length - maxVisibleTilesSize + 1)) tc.id tc
    have h2 : (cache.drop ((cache.map Prod.fst).length - maxVisibleTilesSize + 1)).length
        = cache.length - ((cache.map Prod.fst).length - maxVisibleTilesSize + 1) :=
      List.length_drop _ _
    unfold maxVisibleTilesSize at *
    omega
  · rename_i hlt
    refine ⟨?_, objSet_keys_nodup hnd⟩
    have h1 := objSet_length cache tc.id tc
    unfold maxVisibleTilesSize at *
    omega

theorem setTileDrawn_spec (ce : Bool) (cache : TileCache) (tc : TileCtxR)
    (hnd : (cache.map Prod.fst).Nodup) (hlen : cache.length ≤ maxTilesCacheSize) :
    (setTileDrawn ce cache tc).length ≤ maxTilesCacheSize ∧
    ((setTileDrawn ce cache tc).map Prod.fst).Nodup := by
  have hlenmap : (cache.map Prod.fst).length = cache.length := List.length_map _ _
  unfold setTileDrawn
  dsimp only
  split
  · exact ⟨hlen, hnd⟩
  · split
    · rename_i hge
      rw [evict_take_drop cache hnd]
      have hdropnd : ((cache.drop ((cache.map Prod.fst).length - maxTilesCacheSize + 1)).map
          Prod.fst).Nodup := by
        rw [List.map_drop]
        exact hnd.sublist (List.drop_sublist _ _)
      refine ⟨?_, objSet_keys_nodup hdropnd⟩
      have h1 := objSet_length
        (cache.drop ((cache.map Prod.fst).length - maxTilesCacheSize + 1)) tc.id tc
      have h2 : (cache.drop ((cache.map Prod.fst).length - maxTilesCacheSize + 1)).length
          = cache.length - ((cache.map Prod.fst).length - maxTilesCacheSize + 1) :=
        List.length_drop _ _
      unfold maxTilesCacheSize at *
      omega
    · rename_i hlt
      refine ⟨?_, objSet_keys_nodup hnd⟩
      have h1 := objSet_length cache tc.id tc
      unfold maxTilesCacheSize at *
      omega

/-- Claim C8 (confirmed): with distinct cache keys (which JavaScript
object keys guarantee), the visible-tile cache holds at most 50 entries
after every insertion — hence after every `getTile` call, which only
touches the caches through `_setVisibleTile` — and the drawn-tile cache
at most 100; when the visible cap is reached, the evicted entries are
exactly the earliest-inserted prefix, removed before the new entry is
inserted; `getTile` never mutates the drawn-tile cache itself. -/
theorem C8_cache_caps :
    (∀ (cache : TileCache) (tc : TileCtxR), (cache.map Prod.fst).Nodup →
      (setVisibleTile cache tc).length ≤ maxVisibleTilesSize ∧
      ((setVisibleTile cache tc).map Prod.fst).Nodup) ∧
    (∀ (ce : Bool) (cache : TileCache) (tc : TileCtxR),
      (cache.map Prod.fst).Nodup → cache.length ≤ maxTilesCacheSize →
      (setTileDrawn ce cache tc).length ≤ maxTilesCacheSize ∧
      ((setTileDrawn ce cache tc).map Prod.fst).Nodup) ∧
    (∀ (cache : TileCache) (tc : TileCtxR), (cache.map Prod.fst).Nodup →
      cache.length ≥ maxVisibleTilesSize →
      setVisibleTile cache tc =
        objSet (cache.drop (cache.length - maxVisibleTilesSize + 1)) tc.id tc) ∧
    (∀ (caches : TileCaches) (id : String),
      (caches.visibleTiles.map Prod.fst).Nodup →
      (getTile caches id).visibleTiles.length ≤ maxVisibleTilesSize ∧
      (getTile caches id).tilesDrawn = caches.tilesDrawn) := by
  refine ⟨setVisibleTile_spec, setTileDrawn_spec, ?_, ?_⟩
  · intro cache tc hnd hge
    have hlenmap : (cache.map Prod.fst).length = cache.length := List.length_map _ _
    unfold setVisibleTile
    dsimp only
    rw [if_pos (by omega), evict_take_drop cache hnd, hlenmap]
  · intro caches id hnd
    exact ⟨(setVisibleTile_spec caches.visibleTiles _ hnd).1, rfl⟩

/-- Claim C8 witness: inserting a fresh tile into a one-entry visible
cache respects the cap and keeps keys distinct. -/
theorem C8_witness :
    (setVisibleTile [("a", ⟨"a"⟩)] ⟨"b"⟩).length ≤ maxVisibleTilesSize ∧
    ((setVisibleTile [("a", ⟨"a"⟩)] ⟨"b"⟩).map Prod.fst).Nodup :=
  C8_cache_caps.1 [("a", ⟨"a"⟩)] ⟨"b"⟩ (by decide)

end GMVE

namespace GMVE

/-! ### Supporting lemmas for truncated remainder -/

theorem tmod_neg_left (a b : ℤ) : (-a).tmod b = -(a.tmod b) := by
  rw [Int.tmod_def, Int.tmod_def, Int.neg_tdiv]
  ring

theorem tmod_gt_neg (a : ℤ) {b : ℤ} (hb : 0 < b) : -b < a.tmod b := by
  rcases le_or_lt 0 a with ha | ha
  · calc -b < 0 := by omega
      _ ≤ a.tmod b := Int.tmod_nonneg b ha
  · have h1 : (-a).tmod b < b := Int.tmod_lt_of_pos (-a) hb
    have h2 : (-a).tmod b = -(a.tmod b) := tmod_neg_left a b
    omega

theorem jsShl1_of_le_30 {z : ℕ} (hz : z ≤ 30) : jsShl1 z = 2 ^ z := by
  unfold jsShl1
  have hz32 : z % 32 = z := Nat.mod_eq_of_lt (by omega)
  rw [hz32]
  have hlt : (2 : ℤ) ^ z + 2 ^ 31 < 2 ^ 32 := by
    have : (2 : ℤ) ^ z ≤ 2 ^ 30 := by
      exact pow_le_pow_right₀ (by norm_num) hz
    norm_num at this ⊢
    omega
  have hnn : (0 : ℤ) ≤ 2 ^ z + 2 ^ 31 := by positivity
  rw [Int.emod_eq_of_lt hnn hlt]
  ring

theorem norm_step_mem {x t : ℤ} (ht : 0 < t) :
    0 ≤ (x.tmod t + t).tmod t ∧ (x.tmod t + t).tmod t < t := by
  have h1 : -t < x.tmod t := tmod_gt_neg x ht
  have h2 : x.tmod t < t := Int.tmod_lt_of_pos x ht
  have hnn : 0 ≤ x.tmod t + t := by omega
  constructor
  · exact Int.tmod_nonneg t hnn
  · exact Int.tmod_lt_of_pos _ ht

theorem norm_step_fixed {x t : ℤ} (ht : 0 < t) (h0 : 0 ≤ x) (h1 : x < t) :
    (x.tmod t + t).tmod t = x := by
  have hx : x.tmod t = x := by
    rw [Int.tmod_eq_emod h0 (le_of_lt ht)]
    exact Int.emod_eq_of_lt h0 h1
  rw [hx]
  have h2 : (x + t).tmod t = (x + t) % t :=
    Int.tmod_eq_emod (by omega) (le_of_lt ht)
  rw [h2, show x + t = x + t * 1 by ring, Int.add_mul_emod_self_left]
  exact Int.emod_eq_of_lt h0 h1

/-! ### Claim C9 -/

/-- Claim C9 (corrected): the claim as stated fails, because the
JavaScript expression `1 << z` wraps to a negative 32-bit value at
`z = 31`.  At tile `(x, y, z) = (1, 0, 31)`, `normalizeTile` returns a
negative x-coordinate, outside the claimed range `[0, 2^z)`. -/
theorem C9_counterexample :
    (normalizeTile ⟨1, 0, 31⟩).x < 0 ∧
      ¬ (0 ≤ (normalizeTile ⟨1, 0, 31⟩).x ∧
          (normalizeTile ⟨1, 0, 31⟩).x < 2 ^ (31 : ℕ)) := by
  constructor <;> decide

/-- Claim C9 (amended): for every tile coordinate with integer `z`
between 0 and 30 (so that `1 << z` does not overflow the 32-bit range),
`normalizeTile` returns x and y in `[0, 2^z)` — also for negative input
x or y — and it is idempotent. -/
theorem C9_normalizeTile_range_idempotent (tile : GMVE.TileCoordZ)
    (hz : tile.z ≤ 30) :
    (0 ≤ (normalizeTile tile).x ∧ (normalizeTile tile).x < 2 ^ tile.z) ∧
    (0 ≤ (normalizeTile tile).y ∧ (normalizeTile tile).y < 2 ^ tile.z) ∧
    normalizeTile (normalizeTile tile) = normalizeTile tile := by
  have ht : (0 : ℤ) < 2 ^ tile.z := by positivity
  have hshl : jsShl1 tile.z = 2 ^ tile.z := jsShl1_of_le_30 hz
  have hx := norm_step_mem (x := tile.x) ht
  have hy := norm_step_mem (x := tile.y) ht
  have hxval : (normalizeTile tile).x = (tile.x.tmod (2 ^ tile.z) + 2 ^ tile.z).tmod (2 ^ tile.z) := by
    simp [normalizeTile, jsRem, hshl]
  have hyval : (normalizeTile tile).y = (tile.y.tmod (2 ^ tile.z) + 2 ^ tile.z).tmod (2 ^ tile.z) := by
    simp [normalizeTile, jsRem, hshl]
  have hzval : (normalizeTile tile).z = tile.z := rfl
  refine ⟨⟨?_, ?_⟩, ⟨?_, ?_⟩, ?_⟩
  · rw [hxval]; exact hx.1
  · rw [hxval]; exact hx.2
  · rw [hyval]; exact hy.1
  · rw [hyval]; exact hy.2
  · have hx2 := norm_step_fixed ht (hxval ▸ hx.1) (hxval ▸ hx.2)
    have hy2 := norm_step_fixed ht (hyval ▸ hy.1) (hyval ▸ hy.2)
    show normalizeTile (normalizeTile tile) = normalizeTile tile
    have : normalizeTile (normalizeTile tile) =
        { x := ((normalizeTile tile).x.tmod (2 ^ tile.z) + 2 ^ tile.z).tmod (2 ^ tile.z)
          y := ((normalizeTile tile).y.tmod (2 ^ tile.z) + 2 ^ tile.z).tmod (2 ^ tile.z)
          z := tile.z } := by
      simp [normalizeTile, jsRem, hzval, hshl]
    rw [this]
    have hxx : ((normalizeTile tile).x.tmod (2 ^ tile.z) + 2 ^ tile.z).tmod (2 ^ tile.z) = (normalizeTile tile).x := by
      rw [hxval] at hx2 ⊢
      exact hx2
    have hyy : ((normalizeTile tile).y.tmod (2 ^ tile.z) + 2 ^ tile.z).tmod (2 ^ tile.z) = (normalizeTile tile).y := by
      rw [hyval] at hy2 ⊢
      exact hy2
    cases htile : normalizeTile tile with
    | mk a b c =>
      rw [htile] at hxx hyy hzval
      simp_all

/-- Claim C9 witness: the amended theorem applied at the concrete tile
`(x, y, z) = (-3, 5, 2)`, whose normalization is `(1, 1, 2)`. -/
theorem C9_witness :
    (0 ≤ (normalizeTile ⟨-3, 5, 2⟩).x ∧ (normalizeTile ⟨-3, 5, 2⟩).x < 2 ^ (2 : ℕ)) ∧
    (0 ≤ (normalizeTile ⟨-3, 5, 2⟩).y ∧ (normalizeTile ⟨-3, 5, 2⟩).y < 2 ^ (2 : ℕ)) ∧
    normalizeTile (normalizeTile ⟨-3, 5, 2⟩) = normalizeTile ⟨-3, 5, 2⟩ :=
  C9_normalizeTile_range_idempotent ⟨-3, 5, 2⟩ (by decide)

end GMVE
